import Mathlib

/-!
Verification development for the schema resolution and validation engine of
packages/node-cli/src/validator01.js.

The JavaScript source is shallowly embedded: JSON values become the inductive
type Json below, JavaScript exceptions become Except results, and the two
effectful collaborators (the file system read and the network fetch) become
explicit oracle functions passed to the embedded pipeline.  The regular
expression scan of findAllRefs is embedded as a character-level scanner that
is equivalent to repeated regexp.exec with the /g flag: at each position the
pattern is tried anchored; on success the match is consumed, otherwise the
scan advances one character.
-/

set_option linter.unusedVariables false

set_option maxRecDepth 8192

/-- A JSON value as produced by JSON.parse.  Object fields are kept in
insertion order, as JavaScript does for string keys; a parsed JavaScript
object holds at most one field per key.  Numbers are restricted to integers,
which is all the claims need and all the sample documents use. -/
inductive Json where
  | null
  | bool (b : Bool)
  | num (n : Int)
  | str (s : String)
  | arr (items : List Json)
  | obj (fields : List (String × Json))

/-- One character of JSON.stringify string escaping (quote, backslash and the
common control characters; other characters are emitted unchanged). -/
def escapeChar (c : Char) : List Char :=
  if c = '\"' then ['\\', '\"']
  else if c = '\\' then ['\\', '\\']
  else if c = '\n' then ['\\', 'n']
  else if c = '\t' then ['\\', 't']
  else if c = '\r' then ['\\', 'r']
  else [c]

/-- JSON.stringify rendering of a string literal, quotes included. -/
def quoteStr (s : String) : String :=
  ⟨'\"' :: ((s.data.map escapeChar).flatten ++ ['\"'])⟩

mutual

/-- JSON.stringify with no indentation argument, as called by findAllRefs:
no whitespace is inserted, object fields keep insertion order. -/
def stringify : Json → String
  | .null => "null"
  | .bool true => "true"
  | .bool false => "false"
  | .num n => toString n
  | .str s => quoteStr s
  | .arr items => "[" ++ stringifyArr items ++ "]"
  | .obj fields => "\x7b" ++ stringifyObj fields ++ "\x7d"

/-- Comma-separated rendering of array elements. -/
def stringifyArr : List Json → String
  | [] => ""
  | [x] => stringify x
  | x :: y :: xs => stringify x ++ "," ++ stringifyArr (y :: xs)

/-- Comma-separated rendering of object fields as quotedKey:value. -/
def stringifyObj : List (String × Json) → String
  | [] => ""
  | [(k, v)] => quoteStr k ++ ":" ++ stringify v
  | (k, v) :: f :: fs => quoteStr k ++ ":" ++ stringify v ++ "," ++ stringifyObj (f :: fs)

end

/-- The error taxonomy of the pipeline.  Each constructor corresponds to one
throw site (or rejected promise) of the source; the carried string is the
message the source puts in the JavaScript Error. -/
inductive JsErr where
  | usageError (msg : String)
  | readError (msg : String)
  | fetchNotOk (msg : String)
  | fetchTimeout
  | ambiguousOrMissingEntity (msg : String)
  | schemaCompileError (msg : String)
deriving DecidableEq

/-- A network request as issued by the source: the fetched url together with
the millisecond bound of the AbortSignal.timeout passed to fetch. -/
structure Request where
  url : String
  timeoutMs : Nat
deriving DecidableEq

/-- The possible outcomes of the runtime fetch call: a fulfilled response that
is ok and parses to a Json body, a fulfilled response that is not ok, or a
rejection by the abort signal (the runtime TimeoutError). -/
inductive FetchResult where
  | ok (j : Json)
  | notOk
  | timeout

/-- AbortSignal.timeout(5000) from the source. -/
def fetchTimeoutMs : Nat := 5000

/-- RESOURCES_PATH from the source. -/
def RESOURCES_PATH : String := "../resources/"

/-- PARENT_SCHEME_URL from the source. -/
def PARENT_SCHEME_URL : String :=
  "https://raw.githubusercontent.com/oracle/netsuite-suitecloud-sdk/refs/heads/feature/PDPDEVTOOL-6007-schemas_for_suitecloud_tools/packages/schemas/parent-netsuite-1.0.0.json"

/-- readHttpsJsonUrl from the source.  The network is an oracle mapping the
issued request to its outcome.  A not-ok response becomes the thrown
Error("Network response was not ok"); a timeout rejection propagates the
runtime timeout error (the source installs no handler for it). -/
def readHttpsJsonUrl (resp : Request → FetchResult) (url : String) : Except JsErr Json :=
  match resp ⟨url, fetchTimeoutMs⟩ with
  | .ok j => .ok j
  | .notOk => .error (.fetchNotOk "Network response was not ok")
  | .timeout => .error .fetchTimeout

/-- readInputParameters from the source, applied to process.argv.slice(2).
The source checks input.length !== 1 and otherwise returns input[0], which is
exactly the match below. -/
def readInputParameters (args : List String) : Except JsErr String :=
  match args with
  | [input0] => .ok input0
  | _ => .error (.usageError "Missing input json file")

/-- readJsonFile from the source: readFileSync of RESOURCES_PATH + fileName
followed by JSON.parse, both embedded in the file-system oracle. -/
def readJsonFile (readFs : String → Except JsErr Json) (fileName : String) : Except JsErr Json :=
  readFs (RESOURCES_PATH ++ fileName)

/-!
The scan of findAllRefs.  The source regular expression is

  /\"\$ref\"\s*:\s*\"(https?:\/\/[\w\/\d_\.\-]+)#\/properties\/([\w\d_\.\-]+)\"/g

Both character classes exclude their following delimiter (the class of group 1
excludes the hash, the class of group 2 excludes the quote), so the greedy
repetitions are forced to take exactly the maximal run and the whole match at
a given start position is deterministic; the optional s in https? is likewise
determined by the character after "http".  The loop regexp.exec(text) with the
/g flag finds matches left to right and resumes after each match, which is the
scan scanAux below.
-/

/-- Character class of group 1: one of \w, slash, \d, underscore, dot, dash. -/
def isUrlChar (c : Char) : Bool :=
  c.isAlphanum || c == '_' || c == '/' || c == '.' || c == '-'

/-- Character class of group 2: one of \w, \d, underscore, dot, dash. -/
def isKeyChar (c : Char) : Bool :=
  c.isAlphanum || c == '_' || c == '.' || c == '-'

/-- The JavaScript whitespace class \s, restricted to its common members. -/
def isJsSpace (c : Char) : Bool :=
  c == ' ' || c == '\t' || c == '\n' || c == '\r' || c == '\x0b' || c == '\x0c'

/-- The literal "$ref" as it occurs, quotes included, in the serialized text. -/
def refLitChars : List Char := ['\"', '$', 'r', 'e', 'f', '\"']

/-- The literal #/properties/ separating the url from the key in a reference. -/
def propsLitChars : List Char :=
  ['#', '/', 'p', 'r', 'o', 'p', 'e', 'r', 't', 'i', 'e', 's', '/']

/-- Strip an expected literal from the front of the text, or fail. -/
def stripLit : List Char → List Char → Option (List Char)
  | [], l => some l
  | _ :: _, [] => none
  | c :: cs, d :: ds => if d = c then stripLit cs ds else none

/-- One-or-more greedy repetition of a character class: the maximal run, which
must be non-empty, together with the remaining text. -/
def takeWhile1 (p : Char → Bool) (l : List Char) : Option (List Char × List Char) :=
  match l.takeWhile p with
  | [] => none
  | c :: cs => some (c :: cs, l.dropWhile p)

/-- The scheme part https?:// of group 1.  The optional s is taken exactly
when the character after "http" is an s, which agrees with the backtracking
regular expression because both branches then demand a colon next. -/
def matchScheme (l : List Char) : Option (List Char × List Char) :=
  match stripLit ['h', 't', 't', 'p'] l with
  | none => none
  | some l1 =>
    match l1 with
    | 's' :: l2 =>
      match stripLit [':', '/', '/'] l2 with
      | none => none
      | some l3 => some (['h', 't', 't', 'p', 's', ':', '/', '/'], l3)
    | _ =>
      match stripLit [':', '/', '/'] l1 with
      | none => none
      | some l3 => some (['h', 't', 't', 'p', ':', '/', '/'], l3)

/-- Anchored match of the reference pattern at the head of the text.  On
success it returns group 1 (the url), group 2 (the key) and the text after
the match. -/
def tryMatch (l : List Char) : Option (String × String × List Char) := do
  let l1 ← stripLit refLitChars l
  let l2 ← stripLit [':'] (l1.dropWhile isJsSpace)
  let l3 ← stripLit ['\"'] (l2.dropWhile isJsSpace)
  let (scheme, l4) ← matchScheme l3
  let (body, l5) ← takeWhile1 isUrlChar l4
  let l6 ← stripLit propsLitChars l5
  let (key, l7) ← takeWhile1 isKeyChar l6
  let rest ← stripLit ['\"'] l7
  some (⟨scheme ++ body⟩, ⟨key⟩, rest)

/-- The exec loop: try the pattern at every position left to right, consuming
each match.  One unit of fuel is spent per examined position, and a match
always consumes at least one character, so fuel equal to the text length is
enough (proved below). -/
def scanAux : Nat → List Char → List (String × String)
  | 0, _ => []
  | _ + 1, [] => []
  | fuel + 1, c :: rest =>
    match tryMatch (c :: rest) with
    | some (url, key, r) => (key, url) :: scanAux fuel r
    | none => scanAux fuel rest

/-- The complete left-to-right list of matches, in text order, as pairs
(key, url) — the order in which the source calls urls.set(match[2], match[1]). -/
def scanList (l : List Char) : List (String × String) :=
  scanAux l.length l

/-- Map.prototype.set of the JavaScript Map: replace the value in place if the
key is present, append a new entry otherwise. -/
def mapSet (m : List (String × String)) (k v : String) : List (String × String) :=
  if m.any (fun p => p.1 == k) then
    m.map (fun p => if p.1 == k then (k, v) else p)
  else
    m ++ [(k, v)]

/-- Map.prototype.get: the value of the entry with the given key, if any. -/
def mapGet (m : List (String × String)) (k : String) : Option String :=
  (m.find? (fun p => p.1 == k)).map (fun p => p.2)

/-- Fold the match list into the Map by repeated set, as the while loop of
findAllRefs does. -/
def buildMap (l : List (String × String)) : List (String × String) :=
  l.foldl (fun m kv => mapSet m kv.1 kv.2) []

/-- findAllRefs from the source: stringify the parent schema, scan the text
for reference patterns, and collect key ↦ url into the Map. -/
def findAllRefs (jsonParentSchema : Json) : List (String × String) :=
  buildMap (scanList (stringify jsonParentSchema).data)

/-- Object.getOwnPropertyNames as applied by getJsonFileType: for an object
the own keys in insertion order; for an array or a string the index names
followed by "length"; for the remaining primitives no own names.  The claims
only exercise the object case. -/
def propNames : Json → List String
  | .obj fields => fields.map (fun p => p.1)
  | .arr items => ((List.range items.length).map (fun i => toString i)) ++ ["length"]
  | .str s => ((List.range s.length).map (fun i => toString i)) ++ ["length"]
  | _ => []

/-- getJsonFileType from the source: the own property names minus the literal
"$schema"; exactly one remaining name (always a string, so the typeof check
of the source is vacuous) is the type, anything else throws.  The unused
availableTypes.keys() call of the error branch is kept as a discarded let. -/
def getJsonFileType (jsonFile : Json) (availableTypes : List (String × String)) :
    Except JsErr String :=
  match (propNames jsonFile).filter (fun p => p != "$schema") with
  | [k] => .ok k
  | _ =>
    let _ := availableTypes.map (fun p => p.1)
    .error (.ambiguousOrMissingEntity "Wrong json file, no main entity: ")

/-- The statement delete doc.$schema of the source (the prepare step of the
spec): remove the top-level $schema field.  A JavaScript object holds at most
one field per key, so removing every "$schema" entry of the field list is the
removal of that one field; delete on a non-object property access is a no-op
here. -/
def prepare : Json → Json
  | .obj fields => .obj (fields.filter (fun p => p.1 != "$schema"))
  | j => j

/-- One structured validation error of the validation primitive (a path into
the document and a description), as reported through validate.errors. -/
structure ValidationError where
  path : String
  message : String
deriving DecidableEq

/-- A compiled validator: the source's validate function returns a boolean
and exposes the error list of the failed call through validate.errors. -/
abbrev Validator := Json → Bool × List ValidationError

/-- getValidateFunctionFromUrl from the source: fetch the schema, delete its
$schema key, compile.  The compilation primitive is an oracle that may fail
(ajv.compile throwing on a structurally invalid schema). -/
def getValidateFunctionFromUrl (resp : Request → FetchResult)
    (compile : Json → Except JsErr Validator) (urlFileSchema : String) :
    Except JsErr Validator :=
  match readHttpsJsonUrl resp urlFileSchema with
  | .error e => .error e
  | .ok schema => compile (prepare schema)

/-- The terminal report of a completed run: the console.log("The file is
valid") branch, the console.error("Validation errors:", ...) branch, and the
console.log("Json object invalid: " + type) branch of the source. -/
inductive Report where
  | valid
  | invalid (errors : List ValidationError)
  | unknownEntityTypeError (msg : String)
deriving DecidableEq

/-- The observable trace of one run of main: the result (a thrown error or a
terminal report), every network request issued, in order, and the document
handed to the compiled validator, if validation was reached. -/
structure RunTrace where
  result : Except JsErr Report
  fetched : List Request
  validated : Option Json

/-- The request issued for the parent schema. -/
def parentReq : Request := ⟨PARENT_SCHEME_URL, fetchTimeoutMs⟩

/-- main from the source (named mainRun because Lean reserves the name main for an entry point), over the file-system, network and compiler oracles.
The stages run in source order: read arguments, read the input file, fetch
the parent schema, index its references, resolve the input type, look the
type up in the index, fetch the sub-schema, strip and compile it, strip the
input document, validate.  Every throw aborts the run at that point, which
the nested matches embed directly. -/
def mainRun (args : List String) (readFs : String → Except JsErr Json)
    (resp : Request → FetchResult) (compile : Json → Except JsErr Validator) : RunTrace :=
  match readInputParameters args with
  | .error e => ⟨.error e, [], none⟩
  | .ok filenameToValidate =>
    match readJsonFile readFs filenameToValidate with
    | .error e => ⟨.error e, [], none⟩
    | .ok jsonFile =>
      match readHttpsJsonUrl resp PARENT_SCHEME_URL with
      | .error e => ⟨.error e, [parentReq], none⟩
      | .ok jsonParentSchema =>
        let subSchemes := findAllRefs jsonParentSchema
        match getJsonFileType jsonFile subSchemes with
        | .error e => ⟨.error e, [parentReq], none⟩
        | .ok jsonFileType =>
          match mapGet subSchemes jsonFileType with
          | none =>
            ⟨.ok (.unknownEntityTypeError ("Json object invalid: " ++ jsonFileType)),
              [parentReq], none⟩
          | some urlFileTypeSchema =>
            match readHttpsJsonUrl resp urlFileTypeSchema with
            | .error e => ⟨.error e, [parentReq, ⟨urlFileTypeSchema, fetchTimeoutMs⟩], none⟩
            | .ok schema =>
              match compile (prepare schema) with
              | .error e => ⟨.error e, [parentReq, ⟨urlFileTypeSchema, fetchTimeoutMs⟩], none⟩
              | .ok validate =>
                let input := prepare jsonFile
                let outcome := validate input
                if outcome.1 then
                  ⟨.ok .valid, [parentReq, ⟨urlFileTypeSchema, fetchTimeoutMs⟩], some input⟩
                else
                  ⟨.ok (.invalid outcome.2), [parentReq, ⟨urlFileTypeSchema, fetchTimeoutMs⟩],
                    some input⟩

/-- The value of a top-level field of a document, if the document is an
object holding that key. -/
def lookupTop (j : Json) (k : String) : Option Json :=
  match j with
  | .obj fields => (fields.find? (fun p => p.1 == k)).map (fun p => p.2)
  | _ => none

/-!
Canonical texts for the claims about findAllRefs: a well-formed reference
pattern rendered the way JSON.stringify renders it (no whitespace), and a
text alternating such patterns with arbitrary separator stretches that
contain no dollar character.  Since the pattern demands a dollar as its
second character and a rendered reference contains its only dollar at index
one, every match of the scan on such a text starts exactly at a rendered
reference.
-/

/-- The serialized form of one reference entry, as JSON.stringify emits it. -/
def renderRef (url key : String) : List Char :=
  refLitChars ++ [':', '\"'] ++ url.data ++ propsLitChars ++ key.data ++ ['\"']

/-- Alternation of rendered references with their following separators; an
entry (url, key, sep) contributes its rendered reference and then sep. -/
def renderRefs : List (String × String × String) → List Char
  | [] => []
  | (url, key, sep) :: rest => renderRef url key ++ sep.data ++ renderRefs rest

/-- A full text: a leading separator, then the alternation. -/
def refsText (sep0 : String) (refs : List (String × String × String)) : List Char :=
  sep0.data ++ renderRefs refs

/-- A well-formed url for group 1: the scheme http:// or https:// followed by
a non-empty run of group 1 characters. -/
def wfUrl (u : String) : Prop :=
  (u.data.take 7 = ['h', 't', 't', 'p', ':', '/', '/'] ∧ u.data.drop 7 ≠ [] ∧
    ∀ c ∈ u.data.drop 7, isUrlChar c) ∨
  (u.data.take 8 = ['h', 't', 't', 'p', 's', ':', '/', '/'] ∧ u.data.drop 8 ≠ [] ∧
    ∀ c ∈ u.data.drop 8, isUrlChar c)

/-- A well-formed key for group 2: a non-empty run of group 2 characters. -/
def wfKey (k : String) : Prop :=
  k.data ≠ [] ∧ ∀ c ∈ k.data, isKeyChar c

/-- No dollar character occurs in the text stretch. -/
def noDollar (l : List Char) : Prop :=
  ∀ c ∈ l, c ≠ '$'

/-- A well-formed reference entry: well-formed url and key, and a separator
free of dollar characters. -/
def WfRef (r : String × String × String) : Prop :=
  wfUrl r.1 ∧ wfKey r.2.1 ∧ noDollar r.2.2.data

instance : DecidablePred wfUrl := fun u => by unfold wfUrl; infer_instance

instance : DecidablePred wfKey := fun k => by unfold wfKey; infer_instance

instance (l : List Char) : Decidable (noDollar l) := by unfold noDollar; infer_instance

instance (r : String × String × String) : Decidable (WfRef r) := by
  unfold WfRef; infer_instance

/-- The sequence of distinct keys accumulated by repeated Map.set, in first
occurrence order, starting from the keys ks already present. -/
def foldInsert (ks : List String) (l : List String) : List String :=
  l.foldl (fun ks k => if k ∈ ks then ks else ks ++ [k]) ks

/-- The value of the last pair of the list carrying the given key, if any:
a later pair with the key takes precedence over an earlier one. -/
def lastVal : List (String × String) → String → Option String
  | [], _ => none
  | (k0, v0) :: ps, k =>
    match lastVal ps k with
    | some v => some v
    | none => if k0 == k then some v0 else none

/-- The url of the last reference entry carrying the given key, if any. -/
def lastUrlOf (refs : List (String × String × String)) (k : String) : Option String :=
  lastVal (refs.map (fun r => (r.2.1, r.1))) k

/-!
Concrete fixtures used by the witnesses: a parent schema carrying one
reference, a sub-schema, input documents and oracles.
-/

/-- A parent schema with a single invoice reference. -/
def wParent : Json :=
  .obj [("properties", .obj [("invoice", .obj
    [("$ref", .str "https://x.com/invoice.json#/properties/invoice")])])]

/-- A parent schema with no references at all. -/
def wParentEmpty : Json := .obj [("properties", .obj [])]

/-- A sub-schema body. -/
def wSub : Json := .obj [("type", .str "object")]

/-- An input document with a $schema key and one entity key. -/
def wDoc : Json :=
  .obj [("$schema", .str "https://x.com/parent.json"), ("invoice", .obj [("id", .num 1)])]

/-- An input document whose single key has no entry in the index. -/
def wDocSales : Json := .obj [("salesorder", .obj [])]

/-- A fixed non-empty validation error list. -/
def wErrs : List ValidationError := [⟨"invoice.id", "must be string"⟩]

/-- A network oracle serving the parent schema at the parent url and the
sub-schema everywhere else. -/
def wResp : Request → FetchResult :=
  fun r => if r.url = PARENT_SCHEME_URL then .ok wParent else .ok wSub

/-- A network oracle serving the empty parent schema everywhere. -/
def wRespEmpty : Request → FetchResult := fun _ => .ok wParentEmpty

/-- A file system oracle serving wDoc. -/
def wReadFs : String → Except JsErr Json := fun _ => .ok wDoc

/-- A file system oracle serving wDocSales. -/
def wReadFsSales : String → Except JsErr Json := fun _ => .ok wDocSales

/-- A compiler oracle whose validator rejects everything with wErrs. -/
def wCompile : Json → Except JsErr Validator := fun _ => .ok (fun _ => (false, wErrs))

/-- A compiler oracle whose validator accepts everything. -/
def wCompileOk : Json → Except JsErr Validator := fun _ => .ok (fun _ => (true, []))

/-! Lemmas about the scanner. -/

theorem stripLit_self (lit rest : List Char) : stripLit lit (lit ++ rest) = some rest := by
  induction lit with
  | nil => rfl
  | cons c cs ih => simp [stripLit, ih]

theorem stripLit_eq_some {lit l l' : List Char} (h : stripLit lit l = some l') :
    l = lit ++ l' := by
  induction lit generalizing l with
  | nil => simpa [stripLit] using h
  | cons c cs ih =>
    cases l with
    | nil => simp [stripLit] at h
    | cons d ds =>
      by_cases hd : d = c
      · subst hd
        simp [stripLit] at h
        simpa using ih h
      · simp [stripLit, hd] at h

theorem takeWhile_run_stop {p : Char → Bool} {run : List Char} (d : Char) (rest : List Char)
    (hrun : ∀ c ∈ run, p c) (hd : ¬ p d) :
    (run ++ d :: rest).takeWhile p = run ∧ (run ++ d :: rest).dropWhile p = d :: rest := by
  induction run with
  | nil => simp [List.takeWhile_cons_of_neg hd, List.dropWhile_cons_of_neg hd]
  | cons c cs ih =>
    have hc : p c := hrun c (by simp)
    have ihs := ih (fun x hx => hrun x (by simp [hx]))
    simp [List.takeWhile_cons_of_pos hc, List.dropWhile_cons_of_pos hc, ihs]

theorem takeWhile1_run {p : Char → Bool} {run : List Char} (d : Char) (rest : List Char)
    (hne : run ≠ []) (hrun : ∀ c ∈ run, p c) (hd : ¬ p d) :
    takeWhile1 p (run ++ d :: rest) = some (run, d :: rest) := by
  obtain ⟨tk, dr⟩ := takeWhile_run_stop d rest hrun hd
  unfold takeWhile1
  rw [tk, dr]
  cases run with
  | nil => exact absurd rfl hne
  | cons c cs => rfl

theorem takeWhile1_eq_some {p : Char → Bool} {l run rest : List Char}
    (h : takeWhile1 p l = some (run, rest)) :
    run = l.takeWhile p ∧ rest = l.dropWhile p := by
  unfold takeWhile1 at h
  split at h
  · exact absurd h (by simp)
  · rename_i c cs heq
    simp at h
    exact ⟨by rw [heq, h.1], h.2.symm⟩

theorem matchScheme_sound {l scheme l4 : List Char}
    (h : matchScheme l = some (scheme, l4)) :
    l = scheme ++ l4 ∧ 7 ≤ scheme.length := by
  unfold matchScheme at h
  split at h
  · exact absurd h (by simp)
  · rename_i l1 h1
    have e1 := stripLit_eq_some h1
    split at h
    · rename_i l2
      split at h
      · exact absurd h (by simp)
      · rename_i l3 h3
        have e3 := stripLit_eq_some h3
        simp only [Option.some.injEq, Prod.mk.injEq] at h
        obtain ⟨hs, h4⟩ := h
        constructor
        · rw [← hs, ← h4]
          simp [e1, e3]
        · rw [← hs]
          simp
    · rename_i hnotS
      split at h
      · exact absurd h (by simp)
      · rename_i l3 h3
        have e3 := stripLit_eq_some h3
        simp only [Option.some.injEq, Prod.mk.injEq] at h
        obtain ⟨hs, h4⟩ := h
        constructor
        · rw [← hs, ← h4]
          simp [e1, e3]
        · rw [← hs]
          simp

theorem tryMatch_some_elim {l : List Char} {u k : String} {r : List Char}
    (h : tryMatch l = some (u, k, r)) :
    ∃ l1 l2 l3 scheme l4 body l5 l6 key l7,
      stripLit refLitChars l = some l1 ∧
      stripLit [':'] (l1.dropWhile isJsSpace) = some l2 ∧
      stripLit ['\"'] (l2.dropWhile isJsSpace) = some l3 ∧
      matchScheme l3 = some (scheme, l4) ∧
      takeWhile1 isUrlChar l4 = some (body, l5) ∧
      stripLit propsLitChars l5 = some l6 ∧
      takeWhile1 isKeyChar l6 = some (key, l7) ∧
      stripLit ['\"'] l7 = some r ∧
      u = ⟨scheme ++ body⟩ ∧ k = ⟨key⟩ := by
  unfold tryMatch at h
  simp only [Option.bind_eq_bind, Option.bind_eq_some] at h
  obtain ⟨l1, h1, l2, h2, l3, h3, ⟨scheme, l4⟩, h4, ⟨body, l5⟩, h5, l6, h6,
    ⟨key, l7⟩, h7, rest, h8, hfin⟩ := h
  simp only [Option.some.injEq, Prod.mk.injEq] at hfin
  obtain ⟨hu, hk, hr⟩ := hfin
  subst hr
  exact ⟨l1, l2, l3, scheme, l4, body, l5, l6, key, l7,
    h1, h2, h3, h4, h5, h6, h7, h8, hu.symm, hk.symm⟩

theorem tryMatch_shrink {l : List Char} {u k : String} {r : List Char}
    (h : tryMatch l = some (u, k, r)) : r.length < l.length := by
  obtain ⟨l1, l2, l3, scheme, l4, body, l5, l6, key, l7,
    h1, h2, h3, h4, h5, h6, h7, h8, _, _⟩ := tryMatch_some_elim h
  have e1 := stripLit_eq_some h1
  have d1 : (l1.dropWhile isJsSpace).length ≤ l1.length :=
    (List.dropWhile_sublist isJsSpace).length_le
  have e2 := stripLit_eq_some h2
  have d2 : (l2.dropWhile isJsSpace).length ≤ l2.length :=
    (List.dropWhile_sublist isJsSpace).length_le
  have e3 := stripLit_eq_some h3
  obtain ⟨e4, hs4⟩ := matchScheme_sound h4
  have d5 : l5.length ≤ l4.length := by
    obtain ⟨_, h⟩ := takeWhile1_eq_some h5
    rw [h]
    exact (List.dropWhile_sublist isUrlChar).length_le
  have e6 := stripLit_eq_some h6
  have d7 : l7.length ≤ l6.length := by
    obtain ⟨_, h⟩ := takeWhile1_eq_some h7
    rw [h]
    exact (List.dropWhile_sublist isKeyChar).length_le
  have e8 := stripLit_eq_some h8
  have c1 : l.length = refLitChars.length + l1.length := by rw [e1, List.length_append]
  have c2 : (l1.dropWhile isJsSpace).length = 1 + l2.length := by
    rw [e2, List.length_append]; rfl
  have c3 : (l2.dropWhile isJsSpace).length = 1 + l3.length := by
    rw [e3, List.length_append]; rfl
  have c4 : l3.length = scheme.length + l4.length := by rw [e4, List.length_append]
  have c6 : l5.length = propsLitChars.length + l6.length := by
    rw [e6, List.length_append]
  have c8 : l7.length = 1 + r.length := by rw [e8, List.length_append]; rfl
  have r1 : refLitChars.length = 6 := by decide
  have r2 : propsLitChars.length = 13 := by decide
  omega

theorem scanAux_nil (f : Nat) : scanAux f [] = [] := by
  cases f <;> rfl

theorem scanAux_eq_fuel : ∀ (n f1 f2 : Nat) (l : List Char), l.length ≤ n →
    l.length ≤ f1 → l.length ≤ f2 → scanAux f1 l = scanAux f2 l := by
  intro n
  induction n with
  | zero =>
    intro f1 f2 l hn _ _
    have : l = [] := List.length_eq_zero.mp (Nat.le_zero.mp hn)
    rw [this, scanAux_nil, scanAux_nil]
  | succ n ih =>
    intro f1 f2 l hn hf1 hf2
    cases l with
    | nil => rw [scanAux_nil, scanAux_nil]
    | cons c rest =>
      cases f1 with
      | zero => simp at hf1
      | succ f1' =>
        cases f2 with
        | zero => simp at hf2
        | succ f2' =>
          simp only [List.length_cons, Nat.add_le_add_iff_right, Nat.succ_le_succ_iff] at hn hf1 hf2
          show scanAux (f1' + 1) (c :: rest) = scanAux (f2' + 1) (c :: rest)
          unfold scanAux
          cases hm : tryMatch (c :: rest) with
          | none => exact ih f1' f2' rest hn hf1 hf2
          | some ukr =>
            obtain ⟨u, k, r⟩ := ukr
            have hr : r.length ≤ rest.length := by
              have := tryMatch_shrink hm
              simp at this
              omega
            show (k, u) :: scanAux f1' r = (k, u) :: scanAux f2' r
            rw [ih f1' f2' r (le_trans hr hn) (le_trans hr hf1) (le_trans hr hf2)]

theorem scanList_cons_none {c : Char} {rest : List Char} (h : tryMatch (c :: rest) = none) :
    scanList (c :: rest) = scanList rest := by
  simp [scanList, scanAux, h]

theorem scanList_cons_some {c : Char} {rest : List Char} {u k : String} {r : List Char}
    (h : tryMatch (c :: rest) = some (u, k, r)) :
    scanList (c :: rest) = (k, u) :: scanList r := by
  have hr : r.length ≤ rest.length := by
    have := tryMatch_shrink h
    simp at this
    omega
  simp only [scanList, List.length_cons, scanAux, h]
  rw [scanAux_eq_fuel rest.length rest.length r.length r hr hr le_rfl]

theorem matchScheme_http (tail : List Char) :
    matchScheme (['h', 't', 't', 'p', ':', '/', '/'] ++ tail) =
      some (['h', 't', 't', 'p', ':', '/', '/'], tail) := by
  simp [matchScheme, stripLit]

theorem matchScheme_https (tail : List Char) :
    matchScheme (['h', 't', 't', 'p', 's', ':', '/', '/'] ++ tail) =
      some (['h', 't', 't', 'p', 's', ':', '/', '/'], tail) := by
  simp [matchScheme, stripLit]

theorem tryMatch_nil : tryMatch [] = none := by
  simp [tryMatch, refLitChars, stripLit]

theorem tryMatch_one (c : Char) : tryMatch [c] = none := by
  by_cases h : c = '\"' <;> simp [tryMatch, refLitChars, stripLit, h]

theorem tryMatch_cons2_none {c0 c1 : Char} (rest : List Char) (h : c1 ≠ '$') :
    tryMatch (c0 :: c1 :: rest) = none := by
  by_cases h0 : c0 = '\"' <;> simp [tryMatch, refLitChars, stripLit, h0, h]

theorem tryMatch_renderRef {u k : String} (hu : wfUrl u) (hk : wfKey k) (rest : List Char) :
    tryMatch (renderRef u k ++ rest) = some (u, k, rest) := by
  obtain ⟨kne, kall⟩ := hk
  have e0 : renderRef u k ++ rest =
      refLitChars ++ (':' :: '\"' ::
        (u.data ++ (propsLitChars ++ (k.data ++ ('\"' :: rest))))) := by
    simp [renderRef]
  unfold tryMatch
  rw [e0, stripLit_self]
  simp only [Option.bind_eq_bind, Option.some_bind]
  rw [List.dropWhile_cons_of_neg (by decide : ¬ isJsSpace ':' = true)]
  have s2 : stripLit [':'] (':' :: '\"' ::
      (u.data ++ (propsLitChars ++ (k.data ++ ('\"' :: rest))))) =
      some ('\"' :: (u.data ++ (propsLitChars ++ (k.data ++ ('\"' :: rest))))) := by
    simp [stripLit]
  rw [s2]
  simp only [Option.some_bind]
  rw [List.dropWhile_cons_of_neg (by decide : ¬ isJsSpace '\"' = true)]
  have s3 : stripLit ['\"'] ('\"' ::
      (u.data ++ (propsLitChars ++ (k.data ++ ('\"' :: rest))))) =
      some (u.data ++ (propsLitChars ++ (k.data ++ ('\"' :: rest)))) := by
    simp [stripLit]
  rw [s3]
  simp only [Option.some_bind]
  have stage_rest : ∀ t : List Char, t ≠ [] → (∀ c ∈ t, isUrlChar c) →
      (takeWhile1 isUrlChar (t ++ (propsLitChars ++ (k.data ++ ('\"' :: rest)))) =
        some (t, propsLitChars ++ (k.data ++ ('\"' :: rest)))) := by
    intro t tne tall
    have ep : propsLitChars ++ (k.data ++ ('\"' :: rest)) =
        '#' :: (['/', 'p', 'r', 'o', 'p', 'e', 'r', 't', 'i', 'e', 's', '/'] ++
          (k.data ++ ('\"' :: rest))) := by
      simp [propsLitChars]
    rw [ep]
    exact takeWhile1_run '#' _ tne tall (by decide)
  have stage_props : stripLit propsLitChars
      (propsLitChars ++ (k.data ++ ('\"' :: rest))) =
      some (k.data ++ ('\"' :: rest)) := stripLit_self _ _
  have stage_key : takeWhile1 isKeyChar (k.data ++ ('\"' :: rest)) =
      some (k.data, '\"' :: rest) :=
    takeWhile1_run '\"' rest kne kall (by decide)
  have stage_close : stripLit ['\"'] ('\"' :: rest) = some rest := by
    simp [stripLit]
  rcases hu with ⟨h7, hne, hall⟩ | ⟨h8, hne, hall⟩
  · have ht : u.data = ['h', 't', 't', 'p', ':', '/', '/'] ++ u.data.drop 7 := by
      conv_lhs => rw [← List.take_append_drop 7 u.data]
      rw [h7]
    rw [ht, List.append_assoc, matchScheme_http]
    simp only [Option.some_bind]
    rw [stage_rest (u.data.drop 7) hne hall]
    simp only [Option.some_bind]
    rw [stage_props]
    simp only [Option.some_bind]
    rw [stage_key]
    simp only [Option.some_bind]
    rw [stage_close]
    simp only [Option.some_bind]
    have hu' : (⟨['h', 't', 't', 'p', ':', '/', '/'] ++ u.data.drop 7⟩ : String) = u := by
      rw [← ht]
    rw [hu']
  · have ht : u.data = ['h', 't', 't', 'p', 's', ':', '/', '/'] ++ u.data.drop 8 := by
      conv_lhs => rw [← List.take_append_drop 8 u.data]
      rw [h8]
    rw [ht, List.append_assoc, matchScheme_https]
    simp only [Option.some_bind]
    rw [stage_rest (u.data.drop 8) hne hall]
    simp only [Option.some_bind]
    rw [stage_props]
    simp only [Option.some_bind]
    rw [stage_key]
    simp only [Option.some_bind]
    rw [stage_close]
    simp only [Option.some_bind]
    have hu' : (⟨['h', 't', 't', 'p', 's', ':', '/', '/'] ++ u.data.drop 8⟩ : String) = u := by
      rw [← ht]
    rw [hu']

theorem scanList_skip : ∀ (sep l : List Char), noDollar sep → l.head? ≠ some '$' →
    scanList (sep ++ l) = scanList l := by
  intro sep
  induction sep with
  | nil => intro l _ _; rw [List.nil_append]
  | cons c cs ih =>
    intro l hnd hl
    have hnone : tryMatch (c :: (cs ++ l)) = none := by
      cases cs with
      | nil =>
        cases l with
        | nil => exact tryMatch_one c
        | cons d ds =>
          have : d ≠ '$' := by
            intro hd
            exact hl (by simp [hd])
          exact tryMatch_cons2_none ds this
      | cons c2 cs2 =>
        have : c2 ≠ '$' := hnd c2 (by simp)
        simpa using tryMatch_cons2_none (cs2 ++ l) this
    rw [List.cons_append, scanList_cons_none hnone]
    exact ih l (fun x hx => hnd x (by simp [hx])) hl

theorem renderRefs_head_ne_dollar (refs : List (String × String × String)) :
    (renderRefs refs).head? ≠ some '$' := by
  cases refs with
  | nil => simp [renderRefs]
  | cons r rs =>
    obtain ⟨u, k, sep⟩ := r
    simp [renderRefs, renderRef, refLitChars]

theorem scanList_renderRefs : ∀ refs : List (String × String × String),
    (∀ r ∈ refs, WfRef r) →
    scanList (renderRefs refs) = refs.map (fun r => (r.2.1, r.1)) := by
  intro refs
  induction refs with
  | nil => intro _; rfl
  | cons r rs ih =>
    intro h
    obtain ⟨u, k, sep⟩ := r
    obtain ⟨hu, hk, hsep⟩ := h (u, k, sep) (by simp)
    have hrender : renderRefs ((u, k, sep) :: rs) =
        renderRef u k ++ (sep.data ++ renderRefs rs) := by
      simp [renderRefs]
    have hmatch := tryMatch_renderRef hu hk (sep.data ++ renderRefs rs)
    have hcons : ∃ c body, renderRef u k = c :: body := by
      simp [renderRef, refLitChars]
    obtain ⟨c, body, hcb⟩ := hcons
    rw [hrender, hcb, List.cons_append]
    rw [hcb, List.cons_append] at hmatch
    rw [scanList_cons_some hmatch]
    rw [scanList_skip sep.data (renderRefs rs) hsep (renderRefs_head_ne_dollar rs)]
    rw [ih (fun x hx => h x (by simp [hx]))]
    rfl

theorem scanList_refsText (sep0 : String) (refs : List (String × String × String))
    (h0 : noDollar sep0.data) (hw : ∀ r ∈ refs, WfRef r) :
    scanList (refsText sep0 refs) = refs.map (fun r => (r.2.1, r.1)) := by
  unfold refsText
  rw [scanList_skip sep0.data (renderRefs refs) h0 (renderRefs_head_ne_dollar refs)]
  exact scanList_renderRefs refs hw

/-! Lemmas about the JavaScript Map embedding. -/

theorem find?_map_update (m : List (String × String)) (k v : String) :
    ((m.map (fun p => if p.1 == k then (k, v) else p)).find? (fun p => p.1 == k)) =
      (m.find? (fun p => p.1 == k)).map (fun _ => (k, v)) := by
  induction m with
  | nil => rfl
  | cons p m' ih =>
    simp only [List.map_cons]
    by_cases h : (p.1 == k) = true
    · rw [if_pos h, List.find?_cons, List.find?_cons]
      simp [h]
    · rw [if_neg h, List.find?_cons, List.find?_cons]
      have hb : (p.1 == k) = false := by simpa using h
      simp only [hb]
      exact ih

theorem find?_map_update_ne {kp k : String} (h : kp ≠ k) (v : String)
    (m : List (String × String)) :
    ((m.map (fun p => if p.1 == kp then (kp, v) else p)).find? (fun p => p.1 == k)) =
      m.find? (fun p => p.1 == k) := by
  induction m with
  | nil => rfl
  | cons p m' ih =>
    simp only [List.map_cons]
    by_cases hp : (p.1 == kp) = true
    · rw [if_pos hp, List.find?_cons, List.find?_cons]
      have hpe : p.1 = kp := by simpa using hp
      have h1 : (kp == k) = false := by simp [h]
      have h2 : (p.1 == k) = false := by simp [hpe, h]
      simp only [h1, h2]
      exact ih
    · rw [if_neg hp, List.find?_cons, List.find?_cons]
      cases hpk : (p.1 == k)
      · simp only [hpk]
        exact ih
      · simp only [hpk]

theorem mapGet_mapSet_self (m : List (String × String)) (k v : String) :
    mapGet (mapSet m k v) k = some v := by
  unfold mapSet mapGet
  split
  · rename_i hany
    rw [List.any_eq_true] at hany
    obtain ⟨p, hp, hpk⟩ := hany
    rw [find?_map_update]
    have hs : (m.find? (fun p => p.1 == k)).isSome := List.find?_isSome.mpr ⟨p, hp, hpk⟩
    obtain ⟨w, hw⟩ := Option.isSome_iff_exists.mp hs
    rw [hw]
    rfl
  · rename_i hany
    have hnone : m.find? (fun p => p.1 == k) = none := by
      rw [List.find?_eq_none]
      intro x hx hq
      exact hany (List.any_eq_true.mpr ⟨x, hx, hq⟩)
    rw [List.find?_append, hnone]
    simp

theorem mapGet_mapSet_ne {kp k : String} (m : List (String × String)) (v : String)
    (h : kp ≠ k) : mapGet (mapSet m kp v) k = mapGet m k := by
  unfold mapSet mapGet
  split
  · rw [find?_map_update_ne h]
  · rw [List.find?_append]
    have : ([(kp, v)].find? (fun p => p.1 == k)) = none := by simp [h]
    rw [this, Option.or_none]

theorem mapGet_foldl : ∀ (ps : List (String × String)) (m : List (String × String)) (k : String),
    mapGet (ps.foldl (fun m kv => mapSet m kv.1 kv.2) m) k = (lastVal ps k).or (mapGet m k) := by
  intro ps
  induction ps with
  | nil => intro m k; simp [lastVal]
  | cons kv ps' ih =>
    intro m k
    obtain ⟨k0, v0⟩ := kv
    rw [List.foldl_cons, ih]
    show (lastVal ps' k).or (mapGet (mapSet m k0 v0) k) = (lastVal ((k0, v0) :: ps') k).or (mapGet m k)
    cases hlast : lastVal ps' k with
    | some v => simp [lastVal, hlast]
    | none =>
      by_cases hk : k0 = k
      · subst hk
        simp [lastVal, hlast, mapGet_mapSet_self]
      · have hne : (k0 == k) = false := by simp [hk]
        simp [lastVal, hlast, hne, mapGet_mapSet_ne m v0 hk]

theorem mapGet_buildMap (ps : List (String × String)) (k : String) :
    mapGet (buildMap ps) k = lastVal ps k := by
  unfold buildMap
  rw [mapGet_foldl]
  simp [mapGet]

theorem keys_mapSet (m : List (String × String)) (k v : String) :
    (mapSet m k v).map Prod.fst =
      if k ∈ m.map Prod.fst then m.map Prod.fst else m.map Prod.fst ++ [k] := by
  unfold mapSet
  split
  · rename_i hany
    rw [List.any_eq_true] at hany
    obtain ⟨p, hp, hpk⟩ := hany
    have hk : k ∈ m.map Prod.fst := by
      rw [List.mem_map]
      exact ⟨p, hp, by simpa using hpk⟩
    rw [if_pos hk, List.map_map]
    apply List.map_congr_left
    intro q hq
    by_cases h : (q.1 == k) = true
    · have : q.1 = k := by simpa using h
      simp [Function.comp, h, this]
    · simp [Function.comp, h]
  · rename_i hany
    have hnk : k ∉ m.map Prod.fst := by
      intro hk
      rw [List.mem_map] at hk
      obtain ⟨p, hp, hpk⟩ := hk
      exact hany (List.any_eq_true.mpr ⟨p, hp, by simp [hpk]⟩)
    rw [if_neg hnk, List.map_append]
    rfl

theorem foldInsert_cons (ks : List String) (a : String) (l : List String) :
    foldInsert ks (a :: l) = foldInsert (if a ∈ ks then ks else ks ++ [a]) l := rfl

theorem keys_foldl : ∀ (ps : List (String × String)) (m : List (String × String)),
    ((ps.foldl (fun m kv => mapSet m kv.1 kv.2) m).map Prod.fst) =
      foldInsert (m.map Prod.fst) (ps.map Prod.fst) := by
  intro ps
  induction ps with
  | nil => intro m; rfl
  | cons kv ps' ih =>
    intro m
    obtain ⟨k0, v0⟩ := kv
    rw [List.foldl_cons, ih, List.map_cons, foldInsert_cons, keys_mapSet]

theorem foldInsert_le : ∀ (l ks : List String),
    (foldInsert ks l).length ≤ ks.length + l.length := by
  intro l
  induction l with
  | nil => intro ks; simp [foldInsert]
  | cons a l' ih =>
    intro ks
    rw [foldInsert_cons]
    by_cases h : a ∈ ks
    · rw [if_pos h]
      have := ih ks
      simp only [List.length_cons]
      omega
    · rw [if_neg h]
      have := ih (ks ++ [a])
      simp only [List.length_append, List.length_cons, List.length_nil] at this ⊢
      omega

theorem foldInsert_mem : ∀ (l ks : List String) (a : String),
    (a ∈ ks ∨ a ∈ l) → a ∈ foldInsert ks l := by
  intro l
  induction l with
  | nil =>
    intro ks a h
    rcases h with h | h
    · exact h
    · simp at h
  | cons b l' ih =>
    intro ks a h
    rw [foldInsert_cons]
    by_cases hb : b ∈ ks
    · rw [if_pos hb]
      rcases h with h | h
      · exact ih ks a (Or.inl h)
      · rcases List.mem_cons.mp h with heq | h2
        · subst heq
          exact ih ks a (Or.inl hb)
        · exact ih ks a (Or.inr h2)
    · rw [if_neg hb]
      rcases h with h | h
      · exact ih (ks ++ [b]) a (Or.inl (List.mem_append_left _ h))
      · rcases List.mem_cons.mp h with heq | h2
        · subst heq
          exact ih (ks ++ [a]) a (Or.inl (by simp))
        · exact ih (ks ++ [b]) a (Or.inr h2)

theorem foldInsert_eq_len : ∀ (l ks : List String), l.Nodup → (∀ a ∈ l, a ∉ ks) →
    (foldInsert ks l).length = ks.length + l.length := by
  intro l
  induction l with
  | nil => intro ks _ _; simp [foldInsert]
  | cons a l' ih =>
    intro ks hnd hout
    rw [foldInsert_cons, if_neg (hout a (by simp))]
    rw [List.nodup_cons] at hnd
    have hout' : ∀ b ∈ l', b ∉ ks ++ [a] := by
      intro b hb
      simp only [List.mem_append, List.mem_singleton]
      rintro (hbk | rfl)
      · exact hout b (by simp [hb]) hbk
      · exact hnd.1 hb
    rw [ih (ks ++ [a]) hnd.2 hout']
    simp only [List.length_append, List.length_cons, List.length_nil]
    omega

theorem foldInsert_lt : ∀ (l ks : List String),
    (¬ l.Nodup ∨ ∃ a ∈ l, a ∈ ks) →
    (foldInsert ks l).length < ks.length + l.length := by
  intro l
  induction l with
  | nil =>
    intro ks h
    rcases h with h | ⟨a, ha, _⟩
    · exact absurd List.nodup_nil h
    · simp at ha
  | cons a l' ih =>
    intro ks h
    rw [foldInsert_cons]
    by_cases ha : a ∈ ks
    · rw [if_pos ha]
      have := foldInsert_le l' ks
      simp only [List.length_cons]
      omega
    · rw [if_neg ha]
      have step : (foldInsert (ks ++ [a]) l').length < (ks ++ [a]).length + l'.length := by
        apply ih
        rcases h with hnd | ⟨b, hb, hbks⟩
        · rw [List.nodup_cons] at hnd
          by_cases hal : a ∈ l'
          · exact Or.inr ⟨a, hal, by simp⟩
          · left
            intro hnd'
            exact hnd ⟨hal, hnd'⟩
        · rcases List.mem_cons.mp hb with rfl | hbl
          · exact absurd hbks ha
          · exact Or.inr ⟨b, hbl, by simp [hbks]⟩
      simp only [List.length_append, List.length_cons, List.length_nil] at step ⊢
      omega

theorem length_buildMap_keys (ps : List (String × String)) :
    (buildMap ps).length = (foldInsert [] (ps.map Prod.fst)).length := by
  have h := keys_foldl ps []
  calc (buildMap ps).length = ((buildMap ps).map Prod.fst).length := by rw [List.length_map]
    _ = (foldInsert [] (ps.map Prod.fst)).length := by
        unfold buildMap
        rw [h]
        rfl

theorem buildMap_length_nodup (ps : List (String × String))
    (h : (ps.map Prod.fst).Nodup) : (buildMap ps).length = ps.length := by
  rw [length_buildMap_keys, foldInsert_eq_len (ps.map Prod.fst) [] h (by simp)]
  simp

theorem buildMap_length_lt (ps : List (String × String))
    (h : ¬ (ps.map Prod.fst).Nodup) : (buildMap ps).length < ps.length := by
  have := foldInsert_lt (ps.map Prod.fst) [] (Or.inl h)
  rw [length_buildMap_keys]
  simpa using this

theorem find?_filter_of_imp {α : Type} (q f : α → Bool)
    (himp : ∀ x, q x = true → f x = true) :
    ∀ l : List α, (l.filter f).find? q = l.find? q := by
  intro l
  induction l with
  | nil => rfl
  | cons p l' ih =>
    by_cases hf : f p = true
    · rw [List.filter_cons_of_pos hf, List.find?_cons, List.find?_cons]
      cases hq : q p
      · exact ih
      · rfl
    · have hq : q p = false := by
        cases hqp : q p
        · rfl
        · exact absurd (himp p hqp) hf
      rw [List.filter_cons_of_neg (by simp [hf]), List.find?_cons, hq]
      exact ih

theorem lookupTop_prepare_schema (doc : Json) :
    lookupTop (prepare doc) "$schema" = none := by
  cases doc with
  | obj fields =>
    simp only [prepare, lookupTop]
    have : (fields.filter (fun p => p.1 != "$schema")).find?
        (fun p => p.1 == "$schema") = none := by
      rw [List.find?_eq_none]
      intro x hx
      have := (List.mem_filter.mp hx).2
      simpa using this
    rw [this]
    rfl
  | null => rfl
  | bool b => rfl
  | num n => rfl
  | str s => rfl
  | arr items => rfl

theorem lookupTop_prepare_ne (doc : Json) (k : String) (h : k ≠ "$schema") :
    lookupTop (prepare doc) k = lookupTop doc k := by
  cases doc with
  | obj fields =>
    simp only [prepare, lookupTop]
    rw [find?_filter_of_imp]
    intro x hx
    have : x.1 = k := by simpa using hx
    simp [this, h]
  | null => rfl
  | bool b => rfl
  | num n => rfl
  | str s => rfl
  | arr items => rfl

theorem mainRun_reach (args : List String) (readFs : String → Except JsErr Json)
    (resp : Request → FetchResult) (compile : Json → Except JsErr Validator)
    (path : String) (doc parent schema : Json) (t url : String) (v : Validator)
    (h1 : readInputParameters args = .ok path)
    (h2 : readFs (RESOURCES_PATH ++ path) = .ok doc)
    (h3 : resp ⟨PARENT_SCHEME_URL, fetchTimeoutMs⟩ = .ok parent)
    (h4 : getJsonFileType doc (findAllRefs parent) = .ok t)
    (h5 : mapGet (findAllRefs parent) t = some url)
    (h6 : resp ⟨url, fetchTimeoutMs⟩ = .ok schema)
    (h7 : compile (prepare schema) = .ok v) :
    mainRun args readFs resp compile =
      ⟨if (v (prepare doc)).1 then .ok .valid else .ok (.invalid (v (prepare doc)).2),
        [parentReq, ⟨url, fetchTimeoutMs⟩], some (prepare doc)⟩ := by
  simp only [mainRun, readJsonFile, readHttpsJsonUrl, h1, h2, h3, h4, h5, h6, h7]
  split <;> rfl

theorem lastVal_not_mem : ∀ (ps : List (String × String)) (k : String),
    k ∉ ps.map Prod.fst → lastVal ps k = none := by
  intro ps
  induction ps with
  | nil => intro k _; rfl
  | cons p ps' ih =>
    intro k hk
    obtain ⟨k0, v0⟩ := p
    simp only [List.map_cons, List.mem_cons] at hk
    push_neg at hk
    have hne : (k0 == k) = false := by
      simp only [beq_eq_false_iff_ne, ne_eq]
      intro h
      exact hk.1 h.symm
    simp [lastVal, ih k hk.2, hne]

theorem lastVal_nodup : ∀ (ps : List (String × String)) (k u : String),
    (ps.map Prod.fst).Nodup → (k, u) ∈ ps → lastVal ps k = some u := by
  intro ps
  induction ps with
  | nil => intro k u _ hmem; simp at hmem
  | cons p ps' ih =>
    intro k u hnd hmem
    obtain ⟨k0, v0⟩ := p
    rw [List.map_cons, List.nodup_cons] at hnd
    rcases List.mem_cons.mp hmem with heq | hmem'
    · obtain ⟨hk, hu⟩ := Prod.mk.injEq .. ▸ heq
      subst hk
      subst hu
      have hnin : k ∉ ps'.map Prod.fst := hnd.1
      simp [lastVal, lastVal_not_mem ps' k hnin]
    · have := ih k u hnd.2 hmem'
      simp [lastVal, this]

/-! The claims. -/

/-- C1: For every input document with exactly one top-level key k after
excluding the literal key "$schema", TypeResolver.resolve (getJsonFileType)
returns k; for every input document with zero or two-or-more such keys, it
fails with AmbiguousOrMissingEntityError instead of returning a type. -/
theorem typeResolver_resolve_spec (fields : List (String × Json))
    (avail : List (String × String)) :
    (∀ k, ((fields.map (fun p => p.1)).filter (fun p => p != "$schema")) = [k] →
      getJsonFileType (.obj fields) avail = .ok k) ∧
    (((fields.map (fun p => p.1)).filter (fun p => p != "$schema")) = [] ∨
        2 ≤ ((fields.map (fun p => p.1)).filter (fun p => p != "$schema")).length →
      getJsonFileType (.obj fields) avail =
        .error (.ambiguousOrMissingEntity "Wrong json file, no main entity: ")) := by
  constructor
  · intro k hk
    simp only [getJsonFileType, propNames]
    rw [hk]
  · intro h
    simp only [getJsonFileType, propNames]
    cases hfl : (fields.map (fun p => p.1)).filter (fun p => p != "$schema") with
    | nil => rfl
    | cons x xs =>
      cases xs with
      | nil =>
        rw [hfl] at h
        rcases h with h | h
        · exact absurd h (by simp)
        · simp at h
      | cons y ys => rfl

theorem typeResolver_resolve_spec_witness :
    getJsonFileType (.obj [("$schema", .str "url"), ("invoice", .obj [])]) [] =
      .ok "invoice" ∧
    getJsonFileType (.obj [("invoice", .obj []), ("creditmemo", .obj [])]) [] =
      .error (.ambiguousOrMissingEntity "Wrong json file, no main entity: ") ∧
    getJsonFileType (.obj [("$schema", .str "url")]) [] =
      .error (.ambiguousOrMissingEntity "Wrong json file, no main entity: ") :=
  ⟨(typeResolver_resolve_spec [("$schema", .str "url"), ("invoice", .obj [])] []).1
      "invoice" (by decide),
    (typeResolver_resolve_spec [("invoice", .obj []), ("creditmemo", .obj [])] []).2
      (Or.inr (by decide)),
    (typeResolver_resolve_spec [("$schema", .str "url")] []).2 (Or.inl (by decide))⟩

/-- C4: SchemaFetcher.prepare (the $schema-stripping step, the statement
delete doc.$schema of the source) is idempotent: for every JSON document d,
prepare (prepare d) = prepare d. -/
theorem prepare_idempotent (d : Json) : prepare (prepare d) = prepare d := by
  cases d with
  | obj fields => simp [prepare, List.filter_filter]
  | null => rfl
  | bool b => rfl
  | num n => rfl
  | str s => rfl
  | arr items => rfl

/-- C6 counterexample: the error produced by readHttpsJsonUrl for a
non-success response is one fixed generic value, identical for two distinct
locators, so it cannot carry the locator (nor the response cause) as the
claim states. -/
theorem fetch_error_not_locator_specific :
    readHttpsJsonUrl (fun _ => .notOk) "https://a.example/s1.json" =
      readHttpsJsonUrl (fun _ => .notOk) "https://b.example/s2.json" ∧
    ("https://a.example/s1.json" : String) ≠ "https://b.example/s2.json" :=
  ⟨rfl, by decide⟩

/-- C6 amended: for every locator, readHttpsJsonUrl issues the fetch request
with the 5000 millisecond abort signal; a non-success response fails with the
fixed generic Error "Network response was not ok", which carries neither the
locator nor the underlying cause; a timeout rejection propagates as the
runtime timeout error, which is distinct from the generic error. -/
theorem readHttpsJsonUrl_amended (resp : Request → FetchResult) (url : String) :
    (resp ⟨url, fetchTimeoutMs⟩ = .notOk →
      readHttpsJsonUrl resp url = .error (.fetchNotOk "Network response was not ok")) ∧
    (resp ⟨url, fetchTimeoutMs⟩ = .timeout →
      readHttpsJsonUrl resp url = .error .fetchTimeout) ∧
    (∀ j, resp ⟨url, fetchTimeoutMs⟩ = .ok j → readHttpsJsonUrl resp url = .ok j) ∧
    JsErr.fetchTimeout ≠ JsErr.fetchNotOk "Network response was not ok" ∧
    fetchTimeoutMs = 5000 := by
  refine ⟨?_, ?_, ?_, ?_, rfl⟩
  · intro h
    simp [readHttpsJsonUrl, h]
  · intro h
    simp [readHttpsJsonUrl, h]
  · intro j h
    simp [readHttpsJsonUrl, h]
  · intro h
    cases h

theorem readHttpsJsonUrl_amended_witness :
    readHttpsJsonUrl (fun _ => .notOk) "https://a.example/s.json" =
      .error (.fetchNotOk "Network response was not ok") ∧
    readHttpsJsonUrl (fun _ => .timeout) "https://a.example/s.json" =
      .error .fetchTimeout :=
  ⟨(readHttpsJsonUrl_amended (fun _ => .notOk) "https://a.example/s.json").1 rfl,
    (readHttpsJsonUrl_amended (fun _ => .timeout) "https://a.example/s.json").2.1 rfl⟩

/-- C7: the command-line entry point requires exactly one positional
argument: for every argument list of length zero or at least two it fails
with the fatal usage error, and for every one-element list it returns that
argument as the input path. -/
theorem readInputParameters_spec (args : List String) :
    ((args = [] ∨ 2 ≤ args.length) →
      readInputParameters args = .error (.usageError "Missing input json file")) ∧
    (∀ x, args = [x] → readInputParameters args = .ok x) := by
  constructor
  · intro h
    cases args with
    | nil => rfl
    | cons a rest =>
      cases rest with
      | nil =>
        rcases h with h | h
        · exact absurd h (by simp)
        · simp at h
      | cons b r => rfl
  · intro x hx
    subst hx
    rfl

theorem readInputParameters_spec_witness :
    readInputParameters [] = .error (.usageError "Missing input json file") ∧
    readInputParameters ["a.json", "b.json"] =
      .error (.usageError "Missing input json file") ∧
    readInputParameters ["a.json"] = .ok "a.json" :=
  ⟨(readInputParameters_spec []).1 (Or.inl rfl),
    (readInputParameters_spec ["a.json", "b.json"]).1 (Or.inr (by decide)),
    (readInputParameters_spec ["a.json"]).2 "a.json" rfl⟩

/-- C2: For every parent schema whose serialized text contains N well-formed
reference patterns (a leading separator and an alternation of rendered
references with dollar-free separators) with N distinct keys,
RefIndexer.index (findAllRefs) returns a map of size exactly N mapping each
key to its URL; when a key recurs among the N patterns, the map size is
strictly less than N and the key maps to the URL of its last (latest)
occurrence in the text. -/
theorem refIndexer_index_spec (j : Json) (sep0 : String)
    (refs : List (String × String × String))
    (htext : (stringify j).data = refsText sep0 refs)
    (h0 : noDollar sep0.data) (hw : ∀ r ∈ refs, WfRef r) :
    ((refs.map (fun r => r.2.1)).Nodup →
      (findAllRefs j).length = refs.length ∧
      ∀ r ∈ refs, mapGet (findAllRefs j) r.2.1 = some r.1) ∧
    (¬ (refs.map (fun r => r.2.1)).Nodup →
      (findAllRefs j).length < refs.length ∧
      ∀ k, k ∈ refs.map (fun r => r.2.1) → mapGet (findAllRefs j) k = lastUrlOf refs k) := by
  have hscan : scanList (stringify j).data = refs.map (fun r => (r.2.1, r.1)) := by
    rw [htext]
    exact scanList_refsText sep0 refs h0 hw
  have hfind : findAllRefs j = buildMap (refs.map (fun r => (r.2.1, r.1))) := by
    unfold findAllRefs
    rw [hscan]
  have hkeys : (refs.map (fun r => (r.2.1, r.1))).map Prod.fst =
      refs.map (fun r => r.2.1) := by
    rw [List.map_map]
    rfl
  constructor
  · intro hnd
    constructor
    · rw [hfind, buildMap_length_nodup _ (by rw [hkeys]; exact hnd), List.length_map]
    · intro r hr
      rw [hfind, mapGet_buildMap]
      apply lastVal_nodup _ _ _ (by rw [hkeys]; exact hnd)
      exact List.mem_map.mpr ⟨r, hr, rfl⟩
  · intro hnd
    constructor
    · rw [hfind]
      have := buildMap_length_lt (refs.map (fun r => (r.2.1, r.1)))
        (by rw [hkeys]; exact hnd)
      rwa [List.length_map] at this
    · intro k hk
      rw [hfind, mapGet_buildMap]
      rfl

theorem refIndexer_index_spec_witness :
    (findAllRefs (Json.obj
        [("a", .obj [("$ref", .str "https://x.com/a.json#/properties/invoice")]),
          ("b", .obj [("$ref", .str "https://y.com/b.json#/properties/invoice")])])).length < 2 ∧
    mapGet (findAllRefs (Json.obj
        [("a", .obj [("$ref", .str "https://x.com/a.json#/properties/invoice")]),
          ("b", .obj [("$ref", .str "https://y.com/b.json#/properties/invoice")])])) "invoice" =
      lastUrlOf [("https://x.com/a.json", "invoice", "\x7d,\"b\":\x7b"),
        ("https://y.com/b.json", "invoice", "\x7d\x7d")] "invoice" := by
  have h := refIndexer_index_spec
    (Json.obj [("a", .obj [("$ref", .str "https://x.com/a.json#/properties/invoice")]),
      ("b", .obj [("$ref", .str "https://y.com/b.json#/properties/invoice")])])
    "\x7b\"a\":\x7b"
    [("https://x.com/a.json", "invoice", "\x7d,\"b\":\x7b"),
      ("https://y.com/b.json", "invoice", "\x7d\x7d")]
    rfl (by decide) (by decide)
  have h2 := h.2 (by decide)
  exact ⟨h2.1, h2.2 "invoice" (by decide)⟩

/-- C9: the reference-scanning loop of RefIndexer.index terminates after a
single linear pass over the serialized text (fuel of one step per character
suffices, and every successful match consumes at least one character), and
the index is computed from the parent text alone — findAllRefs takes no
fetch oracle, so it can neither recurse into nor fetch any sub-schema. -/
theorem refIndexer_single_pass :
    (∀ (text : List Char) (fuel : Nat), text.length ≤ fuel →
      scanAux fuel text = scanList text) ∧
    (∀ (u k : String) (r text : List Char), tryMatch text = some (u, k, r) →
      r.length < text.length) ∧
    (∀ j : Json, findAllRefs j = buildMap (scanList (stringify j).data)) := by
  refine ⟨?_, ?_, fun j => rfl⟩
  · intro text fuel h
    exact scanAux_eq_fuel text.length fuel text.length text le_rfl h le_rfl
  · intro u k r text h
    exact tryMatch_shrink h

theorem refIndexer_single_pass_witness :
    scanAux 7 "x\"ref\"x".data = scanList "x\"ref\"x".data :=
  refIndexer_single_pass.1 "x\"ref\"x".data 7 (by decide)

/-- C3: for every run in which the resolved entity type has no entry in the
RefIndex (in particular when the parent schema contains no matching refs, so
the index is empty), the pipeline fails with the unknown-entity-type report
("Json object invalid: " plus the type, reported by the source through
console.log) and performs no further network fetch of any sub-schema: the
request trace is exactly the parent fetch and nothing is validated. -/
theorem pipeline_unknownEntityType_spec (args : List String)
    (readFs : String → Except JsErr Json) (resp : Request → FetchResult)
    (compile : Json → Except JsErr Validator) (path : String) (doc parent : Json)
    (t : String)
    (h1 : readInputParameters args = .ok path)
    (h2 : readFs (RESOURCES_PATH ++ path) = .ok doc)
    (h3 : resp ⟨PARENT_SCHEME_URL, fetchTimeoutMs⟩ = .ok parent)
    (h4 : getJsonFileType doc (findAllRefs parent) = .ok t)
    (h5 : mapGet (findAllRefs parent) t = none) :
    mainRun args readFs resp compile =
      ⟨.ok (.unknownEntityTypeError ("Json object invalid: " ++ t)), [parentReq], none⟩ := by
  simp only [mainRun, readJsonFile, readHttpsJsonUrl, h1, h2, h3, h4, h5]

theorem pipeline_unknownEntityType_spec_witness :
    mainRun ["doc.json"] wReadFsSales wRespEmpty wCompileOk =
      ⟨.ok (.unknownEntityTypeError ("Json object invalid: " ++ "salesorder")),
        [parentReq], none⟩ :=
  pipeline_unknownEntityType_spec ["doc.json"] wReadFsSales wRespEmpty wCompileOk
    "doc.json" wDocSales wParentEmpty "salesorder" rfl rfl rfl rfl rfl

/-- C5: for every input document whose top-level key set (excluding
"$schema") has two or more keys, the pipeline fails at the type-resolution
stage with AmbiguousOrMissingEntityError and never performs a network fetch
of any sub-schema: the request trace is exactly the parent fetch, nothing is
validated, and all remaining stages are skipped. -/
theorem pipeline_ambiguous_shortCircuit (args : List String)
    (readFs : String → Except JsErr Json) (resp : Request → FetchResult)
    (compile : Json → Except JsErr Validator) (path : String)
    (fields : List (String × Json)) (parent : Json)
    (h1 : readInputParameters args = .ok path)
    (h2 : readFs (RESOURCES_PATH ++ path) = .ok (.obj fields))
    (h3 : resp ⟨PARENT_SCHEME_URL, fetchTimeoutMs⟩ = .ok parent)
    (hkeys : 2 ≤ ((fields.map (fun p => p.1)).filter (fun p => p != "$schema")).length) :
    mainRun args readFs resp compile =
      ⟨.error (.ambiguousOrMissingEntity "Wrong json file, no main entity: "),
        [parentReq], none⟩ := by
  have hgt : getJsonFileType (.obj fields) (findAllRefs parent) =
      .error (.ambiguousOrMissingEntity "Wrong json file, no main entity: ") := by
    simp only [getJsonFileType, propNames]
    cases hfl : (fields.map (fun p => p.1)).filter (fun p => p != "$schema") with
    | nil => rfl
    | cons x xs =>
      cases xs with
      | nil =>
        rw [hfl] at hkeys
        simp at hkeys
      | cons y ys => rfl
  simp only [mainRun, readJsonFile, readHttpsJsonUrl, h1, h2, h3, hgt]

theorem pipeline_ambiguous_shortCircuit_witness :
    mainRun ["doc.json"]
      (fun _ => .ok (.obj [("invoice", .obj []), ("creditmemo", .obj [])]))
      wRespEmpty wCompileOk =
      ⟨.error (.ambiguousOrMissingEntity "Wrong json file, no main entity: "),
        [parentReq], none⟩ :=
  pipeline_ambiguous_shortCircuit ["doc.json"]
    (fun _ => .ok (.obj [("invoice", .obj []), ("creditmemo", .obj [])]))
    wRespEmpty wCompileOk "doc.json"
    [("invoice", .obj []), ("creditmemo", .obj [])] wParentEmpty
    rfl rfl rfl (by decide)

/-- C8: for every compiled validator and every input document,
ValidationEngine.validate does not throw when the document merely fails to
conform: whenever the pipeline reaches validation and the validator returns
false with a (per the validation primitive, non-empty) error list, the run
result is the ok report Invalid carrying those errors — not an error of the
pipeline — and the reported error list is non-empty. -/
theorem validate_nonconforming_outcome (args : List String)
    (readFs : String → Except JsErr Json) (resp : Request → FetchResult)
    (compile : Json → Except JsErr Validator) (path : String)
    (doc parent schema : Json) (t url : String) (v : Validator)
    (errs : List ValidationError)
    (h1 : readInputParameters args = .ok path)
    (h2 : readFs (RESOURCES_PATH ++ path) = .ok doc)
    (h3 : resp ⟨PARENT_SCHEME_URL, fetchTimeoutMs⟩ = .ok parent)
    (h4 : getJsonFileType doc (findAllRefs parent) = .ok t)
    (h5 : mapGet (findAllRefs parent) t = some url)
    (h6 : resp ⟨url, fetchTimeoutMs⟩ = .ok schema)
    (h7 : compile (prepare schema) = .ok v)
    (hval : v (prepare doc) = (false, errs))
    (herrs : errs ≠ []) :
    (mainRun args readFs resp compile).result = .ok (.invalid errs) ∧ errs ≠ [] := by
  rw [mainRun_reach args readFs resp compile path doc parent schema t url v
    h1 h2 h3 h4 h5 h6 h7]
  refine ⟨?_, herrs⟩
  simp [hval]

theorem validate_nonconforming_outcome_witness :
    (mainRun ["doc.json"] wReadFs wResp wCompile).result = .ok (.invalid wErrs) ∧
    wErrs ≠ [] :=
  validate_nonconforming_outcome ["doc.json"] wReadFs wResp wCompile "doc.json"
    wDoc wParent wSub "invoice" "https://x.com/invoice.json"
    (fun _ => (false, wErrs)) wErrs rfl rfl rfl rfl rfl rfl rfl rfl (by decide)

/-- C10: before applying the compiled validator, the pipeline deletes the
top-level "$schema" key from the input document itself: the document handed
to validation equals the loaded document with its "$schema" key removed,
with every other top-level key and value unchanged. -/
theorem pipeline_validates_prepared_input (args : List String)
    (readFs : String → Except JsErr Json) (resp : Request → FetchResult)
    (compile : Json → Except JsErr Validator) (path : String)
    (doc parent schema : Json) (t url : String) (v : Validator)
    (h1 : readInputParameters args = .ok path)
    (h2 : readFs (RESOURCES_PATH ++ path) = .ok doc)
    (h3 : resp ⟨PARENT_SCHEME_URL, fetchTimeoutMs⟩ = .ok parent)
    (h4 : getJsonFileType doc (findAllRefs parent) = .ok t)
    (h5 : mapGet (findAllRefs parent) t = some url)
    (h6 : resp ⟨url, fetchTimeoutMs⟩ = .ok schema)
    (h7 : compile (prepare schema) = .ok v) :
    (mainRun args readFs resp compile).validated = some (prepare doc) ∧
    lookupTop (prepare doc) "$schema" = none ∧
    (∀ k, k ≠ "$schema" → lookupTop (prepare doc) k = lookupTop doc k) := by
  refine ⟨?_, lookupTop_prepare_schema doc, fun k hk => lookupTop_prepare_ne doc k hk⟩
  rw [mainRun_reach args readFs resp compile path doc parent schema t url v
    h1 h2 h3 h4 h5 h6 h7]

theorem pipeline_validates_prepared_input_witness :
    (mainRun ["doc.json"] wReadFs wResp wCompile).validated = some (prepare wDoc) ∧
    lookupTop (prepare wDoc) "$schema" = none ∧
    (∀ k, k ≠ "$schema" → lookupTop (prepare wDoc) k = lookupTop wDoc k) :=
  pipeline_validates_prepared_input ["doc.json"] wReadFs wResp wCompile "doc.json"
    wDoc wParent wSub "invoice" "https://x.com/invoice.json"
    (fun _ => (false, wErrs)) rfl rfl rfl rfl rfl rfl rfl
